import Mathlib

/-!
Verification of the Module Registry and Lifecycle Orchestrator of the
`game-kj` repository (`internal/core/module/module.go`).

The Go code is embedded shallowly:

* A `Module` (Go interface with `Name/Init/Start/Stop/LoadCfg`) is a record
  of scripted outcomes: each lifecycle method returns an `error`, modelled as
  `Option String` (`none` = `nil`).  The `id` field models pointer identity,
  distinguishing distinct registrations that may carry equal data.
* `moduleInfo` mirrors the Go struct (embedded module, `state`, `isDisabled`,
  `weight`).
* The process-wide registry `moduleInstance` (a Go slice appended to by
  `RegisterModule`) is an explicit `List moduleInfo` parameter.
* The Go map `moduleMgr.modules` (`map[string]*moduleInfo`) is an association
  list with key-replacing insertion (`mapInsert`).
* Every invocation of a module method is recorded as an `Event`; every
  `log.Info` call is recorded as a `LogLine`.  Each operation returns the
  events and log lines it produces, together with its post-state.  The Go
  loop bodies assign no field of any record, so the post-state components
  are the inputs unchanged.
-/

set_option linter.unusedVariables false

namespace GameKJ

/-- The `module.Module` Go interface, embedded as scripted call outcomes.
`id` models the identity of the concrete module value (pointer identity in
Go); `name` is the result of `Name()`; `initErr`, `startErr`, `stopErr` are
the errors returned by `Init()`, `Start()`, `Stop()`; `loadCfgErr` is the
error returned by `LoadCfg` (the orchestrator only ever calls
`LoadCfg(false)`). -/
structure Module where
  id : Nat
  name : String
  initErr : Option String
  startErr : Option String
  stopErr : Option String
  loadCfgErr : Option String
deriving DecidableEq, Repr

/-- The `ModuleState` enumeration of `module.go` (uint8 constants 0..4). -/
inductive ModuleState where
  | ModuleStateRegistered
  | ModuleStateInitialized
  | ModuleStateCfgLoaded
  | ModuleStateStarted
  | ModuleStateStopped
deriving DecidableEq, Repr

/-- The `moduleInfo` Go struct: embedded `Module`, lifecycle `state`,
`isDisabled` (true = skipped at Start), and startup `weight`. -/
structure moduleInfo where
  mod : Module
  state : ModuleState
  isDisabled : Bool
  weight : Int
deriving DecidableEq, Repr

/-- One recorded invocation of a module method, together with the value the
module returned from it. -/
inductive Event where
  | nameCall (id : Nat)
  | initCall (id : Nat) (err : Option String)
  | startCall (id : Nat) (err : Option String)
  | stopCall (id : Nat) (err : Option String)
  | loadCfgCall (id : Nat) (isReload : Bool) (err : Option String)
deriving DecidableEq, Repr

/-- True for invocations of lifecycle methods (`Init/Start/Stop/LoadCfg`),
false for `Name()` calls. -/
def Event.isLifecycle : Event → Bool
  | Event.nameCall _ => false
  | _ => true

/-- Does this event record an `Init()` invocation? -/
def Event.isInitEv : Event → Bool
  | Event.initCall _ _ => true
  | _ => false

/-- Does this event record a `LoadCfg` invocation? -/
def Event.isCfgEv : Event → Bool
  | Event.loadCfgCall _ _ _ => true
  | _ => false

/-- Does this event record a `Start()` invocation on the module with the
given identity? -/
def Event.isStartOf : Event → Nat → Bool
  | Event.startCall j _, i => j = i
  | _, _ => false

/-- Does this event record a `Stop()` invocation on the module with the
given identity? -/
def Event.isStopOf : Event → Nat → Bool
  | Event.stopCall j _, i => j = i
  | _, _ => false

/-- One structured log line emitted through `log.Info`. -/
structure LogLine where
  msg : String
  fields : List (String × String)
deriving DecidableEq, Repr

/-- `module.RegisterModule`: append a fresh record in state
`ModuleStateRegistered`; `isDisabled` and `weight` take Go zero values
(`false`, `0`). -/
def RegisterModule (moduleInstance : List moduleInfo) (m : Module) : List moduleInfo :=
  moduleInstance ++
    [{ mod := m, state := ModuleState.ModuleStateRegistered, isDisabled := false, weight := 0 }]

/-- The registry produced by registering the given modules, in order, into
an initially empty `moduleInstance` slice. -/
def registryOf (ms : List Module) : List moduleInfo :=
  ms.foldl RegisterModule []

/-- The orchestrator `moduleMgr`: a name-keyed mapping over the registry
snapshot (Go `map[string]*moduleInfo`, embedded as an association list). -/
structure moduleMgr where
  modules : List (String × moduleInfo)
deriving DecidableEq, Repr

/-- Go map assignment `m[k] = v`: replace the entry with key `k` if one
exists, otherwise add a new entry. -/
def mapInsert : List (String × moduleInfo) → String → moduleInfo → List (String × moduleInfo)
  | [], k, v => [(k, v)]
  | p :: rest, k, v => if p.1 = k then (k, v) :: rest else p :: mapInsert rest k v

/-- The loop body of `CreateModuleMgr` over the remaining registry entries,
carrying the mapping built so far.  Each iteration emits the
`log.Info("注册模块", ...)` line and calls `module.Name()` twice: once for
the log field and once as the map key. -/
def createAux : List moduleInfo → List (String × moduleInfo) →
    List (String × moduleInfo) × List LogLine × List Event
  | [], acc => (acc, [], [])
  | r :: rest, acc =>
      let out := createAux rest (mapInsert acc r.mod.name r)
      (out.1,
       { msg := "注册模块", fields := [("moduleName", r.mod.name)] } :: out.2.1,
       Event.nameCall r.mod.id :: Event.nameCall r.mod.id :: out.2.2)

/-- `module.CreateModuleMgr`: snapshot the registry into the name-keyed
mapping, logging each module.  Returns the manager, the log lines emitted,
and the module-method invocations performed. -/
def CreateModuleMgr (moduleInstance : List moduleInfo) :
    moduleMgr × List LogLine × List Event :=
  let out := createAux moduleInstance []
  ({ modules := out.1 }, out.2.1, out.2.2)

/-- The event recorded for `module.Init()` on a registry record. -/
def initEv (r : moduleInfo) : Event :=
  Event.initCall r.mod.id r.mod.initErr

/-- The event recorded for `module.LoadCfg(false)` on a registry record. -/
def cfgEv (r : moduleInfo) : Event :=
  Event.loadCfgCall r.mod.id false r.mod.loadCfgErr

/-- The event recorded for `module.Start()` on a mapping record. -/
def startEv (r : moduleInfo) : Event :=
  Event.startCall r.mod.id r.mod.startErr

/-- The event recorded for `module.Stop()` on a mapping record. -/
def stopEv (r : moduleInfo) : Event :=
  Event.stopCall r.mod.id r.mod.stopErr

/-- First loop of `moduleMgr.Init`: `module.Init()` on every registry entry
in order; the returned error is discarded. -/
def initPass : List moduleInfo → List Event
  | [] => []
  | r :: rest => initEv r :: initPass rest

/-- Second loop of `moduleMgr.Init`: `module.LoadCfg(false)` on every
registry entry in order; the returned error is discarded. -/
def loadCfgPass : List moduleInfo → List Event
  | [] => []
  | r :: rest => cfgEv r :: loadCfgPass rest

/-- `moduleMgr.Init`: two sequential full loops over the process-wide
`moduleInstance` slice (not over the manager's mapping): first `Init()` on
every entry, then `LoadCfg(false)` on every entry.  No log line is emitted,
every returned error is discarded, and no record field is assigned, so the
post-state (third component) is the registry unchanged. -/
def moduleMgr.Init (m : moduleMgr) (moduleInstance : List moduleInfo) :
    List Event × List LogLine × List moduleInfo :=
  (initPass moduleInstance ++ loadCfgPass moduleInstance, [], moduleInstance)

/-- The loop of `moduleMgr.Start` over the mapping entries: `continue` on
`isDisabled`, otherwise `module.Start()` with the error discarded. -/
def startPass : List (String × moduleInfo) → List Event
  | [] => []
  | p :: rest =>
      if p.2.isDisabled then startPass rest
      else startEv p.2 :: startPass rest

/-- `moduleMgr.Start`: iterate the mapping, skip disabled records, invoke
`Start()` on the rest.  No log line, errors discarded, no record mutated. -/
def moduleMgr.Start (m : moduleMgr) : List Event × List LogLine × moduleMgr :=
  (startPass m.modules, [], m)

/-- The loop of `moduleMgr.Stop` over the mapping entries: `module.Stop()`
unconditionally, error discarded. -/
def stopPass : List (String × moduleInfo) → List Event
  | [] => []
  | p :: rest => stopEv p.2 :: stopPass rest

/-- `moduleMgr.Stop`: invoke `Stop()` on every mapping record, disabled or
not.  No log line, errors discarded, no record mutated. -/
def moduleMgr.Stop (m : moduleMgr) : List Event × List LogLine × moduleMgr :=
  (stopPass m.modules, [], m)

/-! ### Basic characterizations of the loops -/

theorem initPass_eq_map (l : List moduleInfo) : initPass l = l.map initEv := by
  induction l with
  | nil => rfl
  | cons r rest ih => simp [initPass, ih]

theorem loadCfgPass_eq_map (l : List moduleInfo) : loadCfgPass l = l.map cfgEv := by
  induction l with
  | nil => rfl
  | cons r rest ih => simp [loadCfgPass, ih]

theorem stopPass_eq_map (l : List (String × moduleInfo)) :
    stopPass l = l.map (fun p => stopEv p.2) := by
  induction l with
  | nil => rfl
  | cons p rest ih => simp [stopPass, ih]

theorem mem_startPass {e : Event} {l : List (String × moduleInfo)}
    (h : e ∈ startPass l) :
    ∃ p, p ∈ l ∧ p.2.isDisabled = false ∧ e = startEv p.2 := by
  induction l with
  | nil => simp [startPass] at h
  | cons p rest ih =>
      by_cases hd : p.2.isDisabled
      · simp only [startPass, hd, if_pos] at h
        obtain ⟨q, hq, hqd, hqe⟩ := ih h
        exact ⟨q, List.mem_cons_of_mem _ hq, hqd, hqe⟩
      · simp only [startPass, hd, if_neg, not_false_iff] at h
        rcases List.mem_cons.mp h with he | he
        · exact ⟨p, List.mem_cons_self _ _, Bool.eq_false_iff.mpr hd, he⟩
        · obtain ⟨q, hq, hqd, hqe⟩ := ih he
          exact ⟨q, List.mem_cons_of_mem _ hq, hqd, hqe⟩

theorem startEv_mem_startPass {p : String × moduleInfo} {l : List (String × moduleInfo)}
    (hp : p ∈ l) (hd : p.2.isDisabled = false) : startEv p.2 ∈ startPass l := by
  induction l with
  | nil => simp at hp
  | cons q rest ih =>
      rcases List.mem_cons.mp hp with he | he
      · subst he
        simp [startPass, hd]
      · by_cases hq : q.2.isDisabled
        · simpa [startPass, hq] using ih he
        · simp only [startPass, hq, if_neg, not_false_iff]
          exact List.mem_cons_of_mem _ (ih he)

/-! ### Concrete fixtures used by witnesses and counterexamples -/

/-- A module whose lifecycle calls all succeed (mirrors the shipped
`ModelDemo` placeholder module, named "demo"). -/
def demoModule : Module :=
  { id := 0, name := "demo", initErr := none, startErr := none,
    stopErr := none, loadCfgErr := none }

/-- A well-behaved module with a chosen identity and name. -/
def okModule (i : Nat) (n : String) : Module :=
  { id := i, name := n, initErr := none, startErr := none,
    stopErr := none, loadCfgErr := none }

/-- A module whose `Init` and `Start` return errors. -/
def errModule : Module :=
  { id := 0, name := "boom", initErr := some "init failed",
    startErr := some "start failed", stopErr := none, loadCfgErr := none }

/-! ### Claim theorems -/

/-- C10: with zero registered modules, `CreateModuleMgr` (Build), `Init`
(InitAll), `Start` (StartAll) and `Stop` (StopAll) are all no-ops: the
mapping is empty, no module method is invoked (empty event traces), and no
log line is emitted.  All operations are total Lean functions, so no panic
is possible. -/
theorem empty_registry_noop :
    registryOf [] = []
    ∧ (CreateModuleMgr (registryOf [])).1.modules = []
    ∧ (CreateModuleMgr (registryOf [])).2.1 = []
    ∧ (CreateModuleMgr (registryOf [])).2.2 = []
    ∧ (moduleMgr.Init (CreateModuleMgr (registryOf [])).1 (registryOf [])).1 = []
    ∧ (moduleMgr.Init (CreateModuleMgr (registryOf [])).1 (registryOf [])).2.1 = []
    ∧ (moduleMgr.Start (CreateModuleMgr (registryOf [])).1).1 = []
    ∧ (moduleMgr.Start (CreateModuleMgr (registryOf [])).1).2.1 = []
    ∧ (moduleMgr.Stop (CreateModuleMgr (registryOf [])).1).1 = []
    ∧ (moduleMgr.Stop (CreateModuleMgr (registryOf [])).1).2.1 = [] := by
  decide

/-- C2: `moduleMgr.Init` (InitAll) performs two full, non-interleaved passes
over the registration sequence in registration order: its event trace is
exactly the `Init` calls of every registered module in order, followed by
the `LoadCfg(isReload=false)` calls of every registered module in order;
moreover every position holding an `Init` event strictly precedes every
position holding a `LoadCfg` event. -/
theorem InitAll_two_full_passes (regs : List moduleInfo) (m : moduleMgr) :
    (moduleMgr.Init m regs).1 = regs.map initEv ++ regs.map cfgEv
    ∧ (∀ e ∈ regs.map initEv, e.isInitEv = true ∧ e.isCfgEv = false)
    ∧ (∀ e ∈ regs.map cfgEv, e.isCfgEv = true ∧ e.isInitEv = false)
    ∧ ∀ i j, ∀ hi : i < (moduleMgr.Init m regs).1.length,
        ∀ hj : j < (moduleMgr.Init m regs).1.length,
        ((moduleMgr.Init m regs).1.get ⟨i, hi⟩).isInitEv = true →
        ((moduleMgr.Init m regs).1.get ⟨j, hj⟩).isCfgEv = true → i < j := by
  have htr : (moduleMgr.Init m regs).1 = regs.map initEv ++ regs.map cfgEv := by
    simp [moduleMgr.Init, initPass_eq_map, loadCfgPass_eq_map]
  refine ⟨htr, ?_, ?_, ?_⟩
  · intro e he
    obtain ⟨r, _, rfl⟩ := List.mem_map.mp he
    exact ⟨rfl, rfl⟩
  · intro e he
    obtain ⟨r, _, rfl⟩ := List.mem_map.mp he
    exact ⟨rfl, rfl⟩
  · intro i j hi hj hinit hcfg
    have hlen : (moduleMgr.Init m regs).1.length = regs.length + regs.length := by
      simp [htr]
    have hiN : i < regs.length := by
      by_contra hge
      push_neg at hge
      have h2 : i - regs.length < regs.length := by
        rw [hlen] at hi
        omega
      have h3 : (moduleMgr.Init m regs).1[i]? =
          some (cfgEv (regs.get ⟨i - regs.length, h2⟩)) := by
        rw [htr, List.getElem?_append]
        have hnot : ¬ i < (regs.map initEv).length := by
          simp only [List.length_map]; omega
        rw [if_neg hnot]
        simp only [List.length_map]
        rw [List.getElem?_map, List.getElem?_eq_getElem h2]
        simp
      rw [List.getElem?_eq_getElem hi] at h3
      have h4 := Option.some.inj h3
      rw [List.get_eq_getElem] at hinit
      rw [h4] at hinit
      simp [cfgEv, Event.isInitEv] at hinit
    have hjN : regs.length ≤ j := by
      by_contra hlt
      push_neg at hlt
      have h3 : (moduleMgr.Init m regs).1[j]? =
          some (initEv (regs.get ⟨j, hlt⟩)) := by
        rw [htr, List.getElem?_append]
        have hyes : j < (regs.map initEv).length := by simpa using hlt
        rw [if_pos hyes]
        rw [List.getElem?_map, List.getElem?_eq_getElem hlt]
        simp
      rw [List.getElem?_eq_getElem hj] at h3
      have h4 := Option.some.inj h3
      rw [List.get_eq_getElem] at hcfg
      rw [h4] at hcfg
      simp [initEv, Event.isCfgEv] at hcfg
    omega

/-- The `moduleInfo` record produced by `RegisterModule` for a module
(enabled, weight 0, state `Registered`). -/
def infoOf (m : Module) : moduleInfo :=
  { mod := m, state := ModuleState.ModuleStateRegistered, isDisabled := false, weight := 0 }

/-- A mapping record marked disabled (`isDisabled = true`); such a record
cannot be produced by `RegisterModule`, which always registers enabled
records, but `moduleMgr.Start` branches on the flag, so its behavior on
disabled records is part of the code. -/
def infoOfDisabled (m : Module) : moduleInfo :=
  { mod := m, state := ModuleState.ModuleStateRegistered, isDisabled := true, weight := 0 }

/-- The one-module registry holding only the erroring module. -/
def regsBoom : List moduleInfo := registryOf [errModule]

/-- The manager built from `regsBoom`. -/
def mgrBoom : moduleMgr := (CreateModuleMgr regsBoom).1

/-- C1 counterexample: on a registry whose only module returns an error from
`Init()` and from `Start()`, the `Init` phase records that the error was
returned (it appears in the call trace) yet emits zero log lines, and
likewise the `Start` phase; the phase operations also return no error value
(their Go signatures are `func (m *moduleMgr) Init()` etc., embedded with no
error component).  So the error is neither surfaced to the caller nor
recorded. -/
theorem lifecycle_error_silently_discarded_cex :
    (moduleMgr.Init mgrBoom regsBoom).1
      = [Event.initCall 0 (some "init failed"), Event.loadCfgCall 0 false none]
    ∧ (moduleMgr.Init mgrBoom regsBoom).2.1 = []
    ∧ (moduleMgr.Start mgrBoom).1 = [Event.startCall 0 (some "start failed")]
    ∧ (moduleMgr.Start mgrBoom).2.1 = []
    ∧ (moduleMgr.Stop mgrBoom).2.1 = [] := by
  decide

/-- C1 amended: errors returned by `Init`, `Start`, `Stop` and `LoadCfg`
are silently discarded by the lifecycle phases: `moduleMgr.Init`,
`moduleMgr.Start` and `moduleMgr.Stop` emit no log lines at all and return
no error to their caller; the loops nevertheless continue past a failing
module — every registration still gets its `Init` and `LoadCfg` calls, every
enabled mapping record gets its `Start` call, and every mapping record its
`Stop` call, whatever errors the modules return. -/
theorem lifecycle_errors_discarded_loops_continue (regs : List moduleInfo) (m : moduleMgr) :
    (moduleMgr.Init m regs).2.1 = []
    ∧ (moduleMgr.Start m).2.1 = []
    ∧ (moduleMgr.Stop m).2.1 = []
    ∧ (moduleMgr.Init m regs).1 = regs.map initEv ++ regs.map cfgEv
    ∧ (∀ p ∈ m.modules, p.2.isDisabled = false → startEv p.2 ∈ (moduleMgr.Start m).1)
    ∧ (∀ p ∈ m.modules, stopEv p.2 ∈ (moduleMgr.Stop m).1) := by
  refine ⟨rfl, rfl, rfl, ?_, ?_, ?_⟩
  · simp [moduleMgr.Init, initPass_eq_map, loadCfgPass_eq_map]
  · intro p hp hd
    exact startEv_mem_startPass hp hd
  · intro p hp
    simp only [moduleMgr.Stop, stopPass_eq_map]
    exact List.mem_map.mpr ⟨p, hp, rfl⟩

/-- Witness for C1's amended theorem at the concrete erroring registry. -/
theorem lifecycle_errors_discarded_loops_continue_witness :
    (moduleMgr.Init mgrBoom regsBoom).2.1 = []
    ∧ startEv (infoOf errModule) ∈ (moduleMgr.Start mgrBoom).1
    ∧ stopEv (infoOf errModule) ∈ (moduleMgr.Stop mgrBoom).1 :=
  ⟨(lifecycle_errors_discarded_loops_continue regsBoom mgrBoom).1,
   (lifecycle_errors_discarded_loops_continue regsBoom mgrBoom).2.2.2.2.1
     ("boom", infoOf errModule) (by decide) (by decide),
   (lifecycle_errors_discarded_loops_continue regsBoom mgrBoom).2.2.2.2.2
     ("boom", infoOf errModule) (by decide)⟩

/-- C6: a lifecycle error does not halt the fan-out.  If the `i`-th
registered module's `Init` returns an error, any module at a later position
`j` still has its `Init` call at trace position `j` and its
`LoadCfg(false)` call at trace position `N + j`; and for any manager state,
every enabled record's `Start` call is in `moduleMgr.Start`'s trace,
whatever errors the other modules return. -/
theorem init_error_fanout_continues (regs : List moduleInfo) (m : moduleMgr)
    (i j : Nat) (hi : i < regs.length) (hj : j < regs.length) (hij : i < j)
    (e : String) (hA : (regs.get ⟨i, hi⟩).mod.initErr = some e) :
    (moduleMgr.Init m regs).1[j]? = some (initEv (regs.get ⟨j, hj⟩))
    ∧ (moduleMgr.Init m regs).1[regs.length + j]? = some (cfgEv (regs.get ⟨j, hj⟩))
    ∧ ∀ mgr : moduleMgr, ∀ p ∈ mgr.modules, p.2.isDisabled = false →
        startEv p.2 ∈ (moduleMgr.Start mgr).1 := by
  have htr : (moduleMgr.Init m regs).1 = regs.map initEv ++ regs.map cfgEv := by
    simp [moduleMgr.Init, initPass_eq_map, loadCfgPass_eq_map]
  refine ⟨?_, ?_, ?_⟩
  · rw [htr, List.getElem?_append]
    have hjm : j < (regs.map initEv).length := by simpa using hj
    simp only [hjm, if_pos]
    rw [List.getElem?_map, List.getElem?_eq_getElem hj]
    simp
  · rw [htr, List.getElem?_append]
    have hge : ¬ regs.length + j < (regs.map initEv).length := by
      simp only [List.length_map]; omega
    rw [if_neg hge]
    simp only [List.length_map]
    have hsub : regs.length + j - regs.length = j := by omega
    rw [hsub, List.getElem?_map, List.getElem?_eq_getElem hj]
    simp
  · intro mgr p hp hd
    exact startEv_mem_startPass hp hd

/-- The two-module registry where the first module's `Init` errors. -/
def regsFanout : List moduleInfo := registryOf [errModule, okModule 1 "second"]

/-- Witness for C6 at a concrete registry: the module registered after the
erroring one still has its `Init` and `LoadCfg` calls in the trace. -/
theorem init_error_fanout_continues_witness :
    (regsFanout.get ⟨0, by decide⟩).mod.initErr = some "init failed"
    ∧ (moduleMgr.Init (CreateModuleMgr regsFanout).1 regsFanout).1[1]?
        = some (initEv (regsFanout.get ⟨1, by decide⟩))
    ∧ (moduleMgr.Init (CreateModuleMgr regsFanout).1 regsFanout).1[3]?
        = some (cfgEv (regsFanout.get ⟨1, by decide⟩)) := by
  refine ⟨by decide, ?_, ?_⟩
  · exact (init_error_fanout_continues regsFanout (CreateModuleMgr regsFanout).1
      0 1 (by decide) (by decide) (by decide) "init failed" (by decide)).1
  · have h := (init_error_fanout_continues regsFanout (CreateModuleMgr regsFanout).1
      0 1 (by decide) (by decide) (by decide) "init failed" (by decide)).2.1
    simpa [regsFanout] using h

/-! ### Characterizations of `CreateModuleMgr` -/

theorem mem_mapInsert_weak {q : String × moduleInfo} :
    ∀ {l : List (String × moduleInfo)} {k : String} {v : moduleInfo},
      q ∈ mapInsert l k v → q = (k, v) ∨ q ∈ l := by
  intro l
  induction l with
  | nil =>
      intro k v h
      simp [mapInsert] at h
      exact Or.inl h
  | cons p rest ih =>
      intro k v h
      by_cases hk : p.1 = k
      · simp only [mapInsert, hk, if_pos] at h
        rcases List.mem_cons.mp h with he | he
        · exact Or.inl he
        · exact Or.inr (List.mem_cons_of_mem _ he)
      · simp only [mapInsert, hk, if_neg, not_false_iff] at h
        rcases List.mem_cons.mp h with he | he
        · exact Or.inr (he ▸ List.mem_cons_self _ _)
        · rcases ih he with hq | hq
          · exact Or.inl hq
          · exact Or.inr (List.mem_cons_of_mem _ hq)

theorem createAux_logs (regs : List moduleInfo) :
    ∀ acc, (createAux regs acc).2.1 = regs.map (fun r =>
      { msg := "注册模块", fields := [("moduleName", r.mod.name)] }) := by
  induction regs with
  | nil => intro acc; rfl
  | cons r rest ih =>
      intro acc
      simp [createAux, ih]

theorem createAux_events (regs : List moduleInfo) :
    ∀ acc, (createAux regs acc).2.2 = regs.flatMap (fun r =>
      [Event.nameCall r.mod.id, Event.nameCall r.mod.id]) := by
  induction regs with
  | nil => intro acc; rfl
  | cons r rest ih =>
      intro acc
      simp [createAux, ih]

theorem createAux_entries_from_regs {q : String × moduleInfo} :
    ∀ (regs : List moduleInfo) (acc : List (String × moduleInfo)),
      q ∈ (createAux regs acc).1 → q ∈ acc ∨ ∃ r ∈ regs, q = (r.mod.name, r) := by
  intro regs
  induction regs with
  | nil =>
      intro acc h
      exact Or.inl h
  | cons r rest ih =>
      intro acc h
      have h' : q ∈ (createAux rest (mapInsert acc r.mod.name r)).1 := h
      rcases ih (mapInsert acc r.mod.name r) h' with hq | ⟨s, hs, hqe⟩
      · rcases mem_mapInsert_weak hq with he | he
        · exact Or.inr ⟨r, List.mem_cons_self _ _, he⟩
        · exact Or.inl he
      · exact Or.inr ⟨s, List.mem_cons_of_mem _ hs, hqe⟩

/-- C3 counterexample: `CreateModuleMgr` (Build) does invoke module code.
On the one-module registry holding the demo module, the build trace holds
two `Name()` invocations (one for the registration log line, one for the
mapping key), so it is not empty. -/
theorem Build_invokes_module_code_cex :
    (CreateModuleMgr (registryOf [demoModule])).2.2
      = [Event.nameCall 0, Event.nameCall 0]
    ∧ (CreateModuleMgr (registryOf [demoModule])).2.2 ≠ [] := by
  decide

/-- C3 amended: `CreateModuleMgr` (Build) only snapshots the registry into a
name→record mapping and returns a ready manager; it invokes no lifecycle
method (`Init`/`Start`/`Stop`/`LoadCfg`) of any module, although it does
invoke each module's `Name()` twice (once for the registration log line and
once as the mapping key).  Every mapping entry is a registry record keyed by
its own name, and the only log lines emitted are the per-module
registration lines. -/
theorem Build_snapshot_no_lifecycle_calls (regs : List moduleInfo) :
    (CreateModuleMgr regs).2.2 = regs.flatMap (fun r =>
      [Event.nameCall r.mod.id, Event.nameCall r.mod.id])
    ∧ (∀ ev ∈ (CreateModuleMgr regs).2.2, ev.isLifecycle = false)
    ∧ (∀ q ∈ (CreateModuleMgr regs).1.modules, ∃ r ∈ regs, q = (r.mod.name, r))
    ∧ (CreateModuleMgr regs).2.1 = regs.map (fun r =>
      { msg := "注册模块", fields := [("moduleName", r.mod.name)] }) := by
  refine ⟨createAux_events regs [], ?_, ?_, createAux_logs regs []⟩
  · intro ev hev
    rw [show (CreateModuleMgr regs).2.2 = (createAux regs []).2.2 from rfl,
        createAux_events regs []] at hev
    obtain ⟨r, _, hr⟩ := List.mem_flatMap.mp hev
    rcases List.mem_cons.mp hr with he | he
    · subst he; rfl
    · rcases List.mem_cons.mp he with he' | he'
      · subst he'; rfl
      · simp at he'
  · intro q hq
    have hq' : q ∈ (createAux regs []).1 := hq
    rcases createAux_entries_from_regs regs [] hq' with h | h
    · simp at h
    · exact h

/-- Witness for C3's amended theorem at the demo-module registry. -/
theorem Build_snapshot_no_lifecycle_calls_witness :
    (Event.nameCall 0).isLifecycle = false
    ∧ ∃ r ∈ registryOf [demoModule], (("demo", infoOf demoModule) : String × moduleInfo)
        = (r.mod.name, r) :=
  ⟨(Build_snapshot_no_lifecycle_calls (registryOf [demoModule])).2.1
     (Event.nameCall 0) (by decide),
   (Build_snapshot_no_lifecycle_calls (registryOf [demoModule])).2.2.1
     ("demo", infoOf demoModule) (by decide)⟩

/-- C4: for every record of the manager's mapping (with pairwise distinct
module identities), if the record is disabled (`enabled=false` in the spec's
terms, `isDisabled=true` in the code), `moduleMgr.Start` records no `Start`
invocation on it, yet `moduleMgr.Stop` still records its `Stop`; if the
record is enabled, its `Start` invocation is in `moduleMgr.Start`'s trace. -/
theorem Start_skips_disabled_Stop_stops_all (m : moduleMgr)
    (hids : (m.modules.map (fun p => p.2.mod.id)).Nodup)
    (p : String × moduleInfo) (hp : p ∈ m.modules) :
    (p.2.isDisabled = true →
      ∀ ev ∈ (moduleMgr.Start m).1, ev.isStartOf p.2.mod.id = false)
    ∧ stopEv p.2 ∈ (moduleMgr.Stop m).1
    ∧ (p.2.isDisabled = false → startEv p.2 ∈ (moduleMgr.Start m).1) := by
  refine ⟨?_, ?_, ?_⟩
  · intro hd ev hev
    obtain ⟨q, hq, hqd, rfl⟩ := mem_startPass hev
    by_contra hne
    have hid : q.2.mod.id = p.2.mod.id := by
      simpa [startEv, Event.isStartOf] using hne
    have hpq : q = p :=
      List.inj_on_of_nodup_map hids hq hp hid
    rw [hpq] at hqd
    rw [hqd] at hd
    exact Bool.false_ne_true hd
  · simp only [moduleMgr.Stop, stopPass_eq_map]
    exact List.mem_map.mpr ⟨p, hp, rfl⟩
  · intro hd
    exact startEv_mem_startPass hp hd

/-- A manager with one enabled and one disabled record. -/
def mgrMixed : moduleMgr :=
  { modules := [("a", infoOf (okModule 0 "a")), ("b", infoOfDisabled (okModule 1 "b"))] }

/-- Witness for C4 on a concrete manager: the disabled record "b" is never
started but is stopped; the enabled record "a" is started. -/
theorem Start_skips_disabled_Stop_stops_all_witness :
    (∀ ev ∈ (moduleMgr.Start mgrMixed).1, ev.isStartOf 1 = false)
    ∧ stopEv (infoOfDisabled (okModule 1 "b")) ∈ (moduleMgr.Stop mgrMixed).1
    ∧ startEv (infoOf (okModule 0 "a")) ∈ (moduleMgr.Start mgrMixed).1 :=
  ⟨(Start_skips_disabled_Stop_stops_all mgrMixed (by decide)
      ("b", infoOfDisabled (okModule 1 "b")) (by decide)).1 (by decide),
   (Start_skips_disabled_Stop_stops_all mgrMixed (by decide)
      ("b", infoOfDisabled (okModule 1 "b")) (by decide)).2.1,
   (Start_skips_disabled_Stop_stops_all mgrMixed (by decide)
      ("a", infoOf (okModule 0 "a")) (by decide)).2.2 (by decide)⟩

/-- Everything a mapping entry carries except the startup weight. -/
def entryShape (p : String × moduleInfo) : String × Module × ModuleState × Bool :=
  (p.1, (p.2.mod, p.2.state, p.2.isDisabled))

theorem startPass_eq_of_shape :
    ∀ (l1 l2 : List (String × moduleInfo)),
      l1.map entryShape = l2.map entryShape → startPass l1 = startPass l2 := by
  intro l1
  induction l1 with
  | nil =>
      intro l2 h
      cases l2 with
      | nil => rfl
      | cons q rest2 => simp at h
  | cons p rest ih =>
      intro l2 h
      cases l2 with
      | nil => simp at h
      | cons q rest2 =>
          simp only [List.map_cons, List.cons.injEq] at h
          obtain ⟨hpq, hrest⟩ := h
          have hmod : p.2.mod = q.2.mod := congrArg (fun t => t.2.1) hpq
          have hdis : p.2.isDisabled = q.2.isDisabled := congrArg (fun t => t.2.2.2) hpq
          by_cases hd : p.2.isDisabled
          · have hd2 : q.2.isDisabled = true := hdis ▸ hd
            simp only [startPass, hd, hd2, if_pos]
            exact ih rest2 hrest
          · have hd2 : ¬ q.2.isDisabled = true := by
              rw [← hdis]; exact hd
            simp only [startPass, hd, hd2, if_neg, not_false_iff]
            have hev : startEv p.2 = startEv q.2 := by
              simp [startEv, hmod]
            rw [hev, ih rest2 hrest]

/-- C7: the startup weight is never consulted by `moduleMgr.Start`
(StartAll).  Two manager states whose mappings agree on everything except
the `weight` field of each record produce identical `Start` traces, so the
same modules are started and skipped. -/
theorem Start_ignores_weight (m1 m2 : moduleMgr)
    (h : m1.modules.map entryShape = m2.modules.map entryShape) :
    (moduleMgr.Start m1).1 = (moduleMgr.Start m2).1 :=
  startPass_eq_of_shape m1.modules m2.modules h

/-- `mgrMixed` with different weights on both records. -/
def mgrMixedW : moduleMgr :=
  { modules :=
      [("a", { mod := okModule 0 "a", state := ModuleState.ModuleStateRegistered,
               isDisabled := false, weight := 7 }),
       ("b", { mod := okModule 1 "b", state := ModuleState.ModuleStateRegistered,
               isDisabled := true, weight := -3 })] }

/-- Witness for C7: changing only the weights leaves the `Start` trace
unchanged. -/
theorem Start_ignores_weight_witness :
    (moduleMgr.Start mgrMixed).1 = (moduleMgr.Start mgrMixedW).1 :=
  Start_ignores_weight mgrMixed mgrMixedW (by decide)

/-! ### Mapping-key lemmas for duplicate-name semantics -/

/-- The keys of the name→record mapping. -/
def keysOf (l : List (String × moduleInfo)) : List String :=
  l.map (fun p => p.1)

theorem mem_keys_mapInsert {k' : String} :
    ∀ {l : List (String × moduleInfo)} {k : String} {v : moduleInfo},
      k' ∈ keysOf (mapInsert l k v) ↔ k' = k ∨ k' ∈ keysOf l := by
  intro l
  induction l with
  | nil =>
      intro k v
      simp [mapInsert, keysOf]
  | cons p rest ih =>
      intro k v
      by_cases hk : p.1 = k
      · simp only [mapInsert, hk, if_pos, keysOf, List.map_cons, List.mem_cons]
        constructor
        · rintro (h | h)
          · exact Or.inl h
          · exact Or.inr (Or.inr h)
        · rintro (h | h | h)
          · exact Or.inl h
          · exact Or.inl h
          · exact Or.inr h
      · simp only [mapInsert, hk, if_neg, not_false_iff, keysOf, List.map_cons, List.mem_cons]
        have := @ih k v
        simp only [keysOf] at this
        rw [this]
        tauto

theorem nodup_keys_mapInsert :
    ∀ {l : List (String × moduleInfo)} {k : String} {v : moduleInfo},
      (keysOf l).Nodup → (keysOf (mapInsert l k v)).Nodup := by
  intro l
  induction l with
  | nil =>
      intro k v _
      simp [mapInsert, keysOf]
  | cons p rest ih =>
      intro k v h
      simp only [keysOf, List.map_cons, List.nodup_cons] at h
      obtain ⟨hpk, hrest⟩ := h
      by_cases hk : p.1 = k
      · simp only [mapInsert, hk, if_pos, keysOf, List.map_cons, List.nodup_cons]
        exact ⟨by rw [← hk]; exact hpk, hrest⟩
      · simp only [mapInsert, hk, if_neg, not_false_iff, keysOf, List.map_cons,
          List.nodup_cons]
        constructor
        · intro hmem
          rcases mem_keys_mapInsert.mp hmem with he | he
          · exact hk he
          · exact hpk he
        · exact ih hrest

theorem mem_mapInsert_nodup {q : String × moduleInfo} :
    ∀ {l : List (String × moduleInfo)} {k : String} {v : moduleInfo},
      (keysOf l).Nodup → q ∈ mapInsert l k v → q = (k, v) ∨ (q ∈ l ∧ q.1 ≠ k) := by
  intro l
  induction l with
  | nil =>
      intro k v _ h
      simp [mapInsert] at h
      exact Or.inl h
  | cons p rest ih =>
      intro k v hnd h
      simp only [keysOf, List.map_cons, List.nodup_cons] at hnd
      obtain ⟨hpk, hrest⟩ := hnd
      by_cases hk : p.1 = k
      · simp only [mapInsert, hk, if_pos] at h
        rcases List.mem_cons.mp h with he | he
        · exact Or.inl he
        · refine Or.inr ⟨List.mem_cons_of_mem _ he, ?_⟩
          intro hqk
          apply hpk
          rw [hk, ← hqk]
          exact List.mem_map.mpr ⟨q, he, rfl⟩
      · simp only [mapInsert, hk, if_neg, not_false_iff] at h
        rcases List.mem_cons.mp h with he | he
        · exact Or.inr ⟨he ▸ List.mem_cons_self _ _, by rw [he]; exact hk⟩
        · rcases ih hrest he with h' | ⟨h1, h2⟩
          · exact Or.inl h'
          · exact Or.inr ⟨List.mem_cons_of_mem _ h1, h2⟩

theorem keyname_mapInsert {l : List (String × moduleInfo)} {v : moduleInfo}
    (h : ∀ q ∈ l, q.1 = q.2.mod.name) :
    ∀ q ∈ mapInsert l v.mod.name v, q.1 = q.2.mod.name := by
  intro q hq
  rcases mem_mapInsert_weak hq with he | he
  · rw [he]
  · exact h q he

theorem keys_createAux_nodup :
    ∀ (regs : List moduleInfo) (acc : List (String × moduleInfo)),
      (keysOf acc).Nodup → (keysOf (createAux regs acc).1).Nodup := by
  intro regs
  induction regs with
  | nil => intro acc h; exact h
  | cons r rest ih =>
      intro acc h
      exact ih (mapInsert acc r.mod.name r) (nodup_keys_mapInsert h)

theorem mem_keys_createAux {k : String} :
    ∀ (regs : List moduleInfo) (acc : List (String × moduleInfo)),
      k ∈ keysOf (createAux regs acc).1
        ↔ k ∈ regs.map (fun r => r.mod.name) ∨ k ∈ keysOf acc := by
  intro regs
  induction regs with
  | nil =>
      intro acc
      simp [createAux]
  | cons r rest ih =>
      intro acc
      have h1 : (createAux (r :: rest) acc).1 = (createAux rest (mapInsert acc r.mod.name r)).1 := rfl
      rw [h1, ih (mapInsert acc r.mod.name r)]
      rw [mem_keys_mapInsert]
      simp only [List.map_cons, List.mem_cons]
      tauto

theorem filter_key_length_of_nodup (n : String) :
    ∀ (l : List (String × moduleInfo)), (keysOf l).Nodup →
      (l.filter (fun p => p.1 = n)).length = if n ∈ keysOf l then 1 else 0 := by
  intro l
  induction l with
  | nil => intro _; simp [keysOf]
  | cons p rest ih =>
      intro h
      simp only [keysOf, List.map_cons, List.nodup_cons] at h
      obtain ⟨hpk, hrest⟩ := h
      by_cases hn : p.1 = n
      · have hnot : n ∉ keysOf rest := by rw [← hn]; exact hpk
        have hmem : n ∈ keysOf (p :: rest) := by
          simp only [keysOf, List.map_cons, List.mem_cons]
          exact Or.inl hn.symm
        rw [if_pos hmem, List.filter_cons_of_pos (by simp [hn])]
        simp only [List.length_cons]
        have h0 : (rest.filter (fun q => q.1 = n)).length = 0 := by
          rw [ih hrest, if_neg hnot]
        omega
      · rw [List.filter_cons_of_neg (by simp [hn])]
        by_cases hm : n ∈ keysOf rest
        · have hmem : n ∈ keysOf (p :: rest) := by
            simp only [keysOf, List.map_cons, List.mem_cons]
            exact Or.inr hm
          rw [if_pos hmem, ih hrest, if_pos hm]
        · have hmem : n ∉ keysOf (p :: rest) := by
            simp only [keysOf, List.map_cons, List.mem_cons]
            rintro (he | he)
            · exact hn he.symm
            · exact hm he
          rw [if_neg hmem, ih hrest, if_neg hm]

/-- Main inventory lemma for the built mapping: with distinct keys that name
their records, every entry of the mapping built by `createAux` is either an
untouched entry of the accumulator whose name never occurs in the processed
registry slice, or a registry record that is the *latest* registration of
its name (no later registry position carries the same name). -/
theorem createAux_entries_latest {q : String × moduleInfo} :
    ∀ (regs : List moduleInfo) (acc : List (String × moduleInfo)),
      (keysOf acc).Nodup → (∀ p ∈ acc, p.1 = p.2.mod.name) →
      q ∈ (createAux regs acc).1 →
      (q ∈ acc ∧ q.2.mod.name ∉ regs.map (fun r => r.mod.name))
      ∨ ∃ p, ∃ hp : p < regs.length, regs.get ⟨p, hp⟩ = q.2
          ∧ q.1 = q.2.mod.name
          ∧ q.2.mod.name ∉ (regs.drop (p + 1)).map (fun r => r.mod.name) := by
  intro regs
  induction regs with
  | nil =>
      intro acc _ _ h
      exact Or.inl ⟨h, by simp⟩
  | cons r rest ih =>
      intro acc hnd hkn h
      have h' : q ∈ (createAux rest (mapInsert acc r.mod.name r)).1 := h
      rcases ih (mapInsert acc r.mod.name r) (nodup_keys_mapInsert hnd)
          (keyname_mapInsert hkn) h' with ⟨hmem, hnin⟩ | ⟨p, hp, hget, hkey, hnin⟩
      · rcases mem_mapInsert_nodup hnd hmem with he | ⟨hacc, hne⟩
        · have hq2 : q.2 = r := by rw [he]
          have hq1 : q.1 = r.mod.name := by rw [he]
          refine Or.inr ⟨0, by simp, ?_, ?_, ?_⟩
          · rw [hq2]; rfl
          · rw [hq1, hq2]
          · rw [hq2] at hnin ⊢
            simpa using hnin
        · refine Or.inl ⟨hacc, ?_⟩
          simp only [List.map_cons, List.mem_cons]
          rintro (he | he)
          · exact hne (by rw [hkn q hacc, he])
          · exact hnin he
      · refine Or.inr ⟨p + 1, by simpa using Nat.succ_lt_succ hp, ?_, hkey, ?_⟩
        · exact hget
        · simpa using hnin

/-! ### C5, C8, C9 -/

/-- C5: on a registry containing two or more registrations with the same
name, the mapping built by `CreateModuleMgr` retains exactly one entry for
that name; every entry with that name is a registry record that is the
latest registration of its name (last registration wins); and the `Init`
phase still traverses every registration instance — its event trace has
length `2 * N` (one `Init` and one `LoadCfg` call per registration,
shadowed ones included). -/
theorem duplicate_name_last_wins (regs : List moduleInfo) (n : String)
    (h2 : 2 ≤ (regs.filter (fun r => r.mod.name = n)).length) :
    ((CreateModuleMgr regs).1.modules.filter (fun p => p.1 = n)).length = 1
    ∧ (∀ q ∈ (CreateModuleMgr regs).1.modules, q.1 = n →
        ∃ p, ∃ hp : p < regs.length, regs.get ⟨p, hp⟩ = q.2 ∧ q.2.mod.name = n
          ∧ q.2.mod.name ∉ (regs.drop (p + 1)).map (fun r => r.mod.name))
    ∧ (moduleMgr.Init (CreateModuleMgr regs).1 regs).1.length = 2 * regs.length := by
  have hmods : (CreateModuleMgr regs).1.modules = (createAux regs []).1 := rfl
  refine ⟨?_, ?_, ?_⟩
  · have hnempty : (regs.filter (fun r => r.mod.name = n)) ≠ [] := by
      intro he
      rw [he] at h2
      simp at h2
    obtain ⟨r, hr⟩ := List.exists_mem_of_ne_nil _ hnempty
    have hrr := List.mem_filter.mp hr
    have hnn : n ∈ regs.map (fun r => r.mod.name) := by
      refine List.mem_map.mpr ⟨r, hrr.1, ?_⟩
      simpa using hrr.2
    have hmem : n ∈ keysOf (createAux regs []).1 :=
      (mem_keys_createAux regs []).mpr (Or.inl hnn)
    rw [hmods, filter_key_length_of_nodup n _ (keys_createAux_nodup regs [] (by simp [keysOf]))]
    simp [hmem]
  · intro q hq hqn
    have hq' : q ∈ (createAux regs []).1 := hq
    rcases createAux_entries_latest regs [] (by simp [keysOf]) (by simp) hq' with
      ⟨hmem, _⟩ | ⟨p, hp, hget, hkey, hnin⟩
    · simp at hmem
    · exact ⟨p, hp, hget, by rw [← hkey, hqn], hnin⟩
  · simp only [moduleMgr.Init, List.length_append, initPass_eq_map, loadCfgPass_eq_map,
      List.length_map]
    omega

/-- Registry with two registrations of the name "dup". -/
def regsDup : List moduleInfo := registryOf [okModule 0 "dup", okModule 1 "dup"]

/-- Witness for C5 at a concrete duplicate-name registry. -/
theorem duplicate_name_last_wins_witness :
    2 ≤ (regsDup.filter (fun r => r.mod.name = "dup")).length
    ∧ ((CreateModuleMgr regsDup).1.modules.filter (fun p => p.1 = "dup")).length = 1
    ∧ (moduleMgr.Init (CreateModuleMgr regsDup).1 regsDup).1.length = 2 * regsDup.length :=
  ⟨by decide,
   (duplicate_name_last_wins regsDup "dup" (by decide)).1,
   (duplicate_name_last_wins regsDup "dup" (by decide)).2.2⟩

theorem registryOf_states_aux (ms : List Module) :
    ∀ acc, (∀ r ∈ acc, r.state = ModuleState.ModuleStateRegistered) →
      ∀ r ∈ ms.foldl RegisterModule acc, r.state = ModuleState.ModuleStateRegistered := by
  induction ms with
  | nil =>
      intro acc h r hr
      exact h r hr
  | cons m rest ih =>
      intro acc h r hr
      refine ih (RegisterModule acc m) ?_ r hr
      intro s hs
      rcases List.mem_append.mp hs with h1 | h1
      · exact h s h1
      · simp only [List.mem_singleton] at h1
        rw [h1]

/-- C8: the `state` field is `ModuleStateRegistered` at registration and is
never modified afterwards.  Every record of any registry built by
`RegisterModule` has state `Registered`; every record of the mapping built
by `CreateModuleMgr` has state `Registered`; and `Init`, `Start` and `Stop`
return their state unchanged (the Go loop bodies assign no record field),
so no record ever holds `Initialized`, `CfgLoaded`, `Started` or
`Stopped`. -/
theorem state_stays_registered (ms : List Module) (regs : List moduleInfo) (m : moduleMgr) :
    (∀ r ∈ registryOf ms, r.state = ModuleState.ModuleStateRegistered)
    ∧ (∀ q ∈ (CreateModuleMgr (registryOf ms)).1.modules,
        q.2.state = ModuleState.ModuleStateRegistered)
    ∧ (moduleMgr.Init m regs).2.2 = regs
    ∧ (moduleMgr.Start m).2.2 = m
    ∧ (moduleMgr.Stop m).2.2 = m := by
  refine ⟨?_, ?_, rfl, rfl, rfl⟩
  · exact registryOf_states_aux ms [] (by simp)
  · intro q hq
    have hq' : q ∈ (createAux (registryOf ms) []).1 := hq
    rcases createAux_entries_from_regs (registryOf ms) [] hq' with h | ⟨r, hr, hqe⟩
    · simp at h
    · have : q.2 = r := by rw [hqe]
      rw [this]
      exact registryOf_states_aux ms [] (by simp) r hr

/-- Witness for C8 at a concrete registry. -/
theorem state_stays_registered_witness :
    (infoOf demoModule).state = ModuleState.ModuleStateRegistered
    ∧ (moduleMgr.Init mgrBoom regsBoom).2.2 = regsBoom
    ∧ (moduleMgr.Start mgrBoom).2.2 = mgrBoom :=
  ⟨(state_stays_registered [demoModule] regsBoom mgrBoom).1 (infoOf demoModule) (by decide),
   (state_stays_registered [demoModule] regsBoom mgrBoom).2.2.1,
   (state_stays_registered [demoModule] regsBoom mgrBoom).2.2.2.1⟩

/-- Helper: positions `i` and `N + i` of the `Init` phase's trace hold the
`Init` and `LoadCfg` calls of the `i`-th registration. -/
theorem Init_trace_at (regs : List moduleInfo) (m : moduleMgr) (i : Nat)
    (hi : i < regs.length) :
    (moduleMgr.Init m regs).1[i]? = some (initEv (regs.get ⟨i, hi⟩))
    ∧ (moduleMgr.Init m regs).1[regs.length + i]? = some (cfgEv (regs.get ⟨i, hi⟩)) := by
  have htr : (moduleMgr.Init m regs).1 = regs.map initEv ++ regs.map cfgEv := by
    simp [moduleMgr.Init, initPass_eq_map, loadCfgPass_eq_map]
  constructor
  · rw [htr, List.getElem?_append]
    have him : i < (regs.map initEv).length := by simpa using hi
    simp only [him, if_pos]
    rw [List.getElem?_map, List.getElem?_eq_getElem hi]
    simp
  · rw [htr, List.getElem?_append]
    have hge : ¬ regs.length + i < (regs.map initEv).length := by
      simp only [List.length_map]; omega
    rw [if_neg hge]
    simp only [List.length_map]
    have hsub : regs.length + i - regs.length = i := by omega
    rw [hsub, List.getElem?_map, List.getElem?_eq_getElem hi]
    simp

/-- C9: a shadowed registration (same name re-registered later) still
receives its `Init` and `LoadCfg` calls from the `Init` phase (at trace
positions `i` and `N + i`), but no `Start` or `Stop` invocation on it ever
appears in the traces of `moduleMgr.Start` or `moduleMgr.Stop` run on the
built manager — in particular its `Stop()` is never called at shutdown. -/
theorem shadowed_registration_only_init_loadCfg (regs : List moduleInfo) (i j : Nat)
    (hi : i < regs.length) (hj : j < regs.length) (hij : i < j)
    (hname : (regs.get ⟨i, hi⟩).mod.name = (regs.get ⟨j, hj⟩).mod.name)
    (hids : (regs.map (fun r => r.mod.id)).Nodup) :
    (moduleMgr.Init (CreateModuleMgr regs).1 regs).1[i]?
        = some (initEv (regs.get ⟨i, hi⟩))
    ∧ (moduleMgr.Init (CreateModuleMgr regs).1 regs).1[regs.length + i]?
        = some (cfgEv (regs.get ⟨i, hi⟩))
    ∧ (∀ ev ∈ (moduleMgr.Start (CreateModuleMgr regs).1).1,
        ev.isStartOf (regs.get ⟨i, hi⟩).mod.id = false)
    ∧ (∀ ev ∈ (moduleMgr.Stop (CreateModuleMgr regs).1).1,
        ev.isStopOf (regs.get ⟨i, hi⟩).mod.id = false) := by
  have hnoval : ∀ q ∈ (CreateModuleMgr regs).1.modules,
      q.2.mod.id ≠ (regs.get ⟨i, hi⟩).mod.id := by
    intro q hq hid
    have hq' : q ∈ (createAux regs []).1 := hq
    rcases createAux_entries_latest regs [] (by simp [keysOf]) (by simp) hq' with
      ⟨hmem, _⟩ | ⟨p, hp, hget, _, hnin⟩
    · simp at hmem
    · -- the entry is the latest registration of its name, at position p
      have h1 : (regs.map (fun r => r.mod.id)).get ⟨p, by simpa using hp⟩
          = (regs.map (fun r => r.mod.id)).get ⟨i, by simpa using hi⟩ := by
        simp only [List.get_eq_getElem, List.getElem_map]
        have hgp : regs[p] = regs.get ⟨p, hp⟩ := rfl
        have hgi : regs[i] = regs.get ⟨i, hi⟩ := rfl
        rw [hgp, hgi, hget]
        exact hid
      have hfin := (List.Nodup.get_inj_iff hids).mp h1
      have hpi : p = i := congrArg Fin.val hfin
      subst hpi
      -- then q.2 is the p-th = i-th registration, but the j-th registration
      -- has the same name strictly later, contradicting latest-ness
      have hq2 : q.2 = regs.get ⟨p, hi⟩ := hget.symm
      apply hnin
      have hjd : j - (p + 1) < (regs.drop (p + 1)).length := by
        simp only [List.length_drop]; omega
      have hdg : (regs.drop (p + 1)).get ⟨j - (p + 1), hjd⟩ = regs.get ⟨j, hj⟩ := by
        simp only [List.get_eq_getElem, List.getElem_drop]
        congr 1
        omega
      refine List.mem_map.mpr ⟨(regs.drop (p + 1)).get ⟨j - (p + 1), hjd⟩, ?_, ?_⟩
      · exact List.get_mem _ _ _
      · rw [hdg, hq2]
        exact hname.symm
  refine ⟨(Init_trace_at regs (CreateModuleMgr regs).1 i hi).1,
    (Init_trace_at regs (CreateModuleMgr regs).1 i hi).2, ?_, ?_⟩
  · intro ev hev
    obtain ⟨q, hq, _, rfl⟩ := mem_startPass hev
    exact decide_eq_false (hnoval q hq)
  · intro ev hev
    simp only [moduleMgr.Stop, stopPass_eq_map] at hev
    obtain ⟨q, hq, rfl⟩ := List.mem_map.mp hev
    exact decide_eq_false (hnoval q hq)

/-- Witness for C9: in the two-registration "dup" registry, the first
(shadowed) registration is initialized and configured but never started or
stopped. -/
theorem shadowed_registration_only_init_loadCfg_witness :
    (moduleMgr.Init (CreateModuleMgr regsDup).1 regsDup).1[0]?
        = some (initEv (regsDup.get ⟨0, by decide⟩))
    ∧ (∀ ev ∈ (moduleMgr.Start (CreateModuleMgr regsDup).1).1,
        ev.isStartOf (regsDup.get ⟨0, by decide⟩).mod.id = false)
    ∧ (∀ ev ∈ (moduleMgr.Stop (CreateModuleMgr regsDup).1).1,
        ev.isStopOf (regsDup.get ⟨0, by decide⟩).mod.id = false) :=
  ⟨(shadowed_registration_only_init_loadCfg regsDup 0 1 (by decide) (by decide)
      (by decide) (by decide) (by decide)).1,
   (shadowed_registration_only_init_loadCfg regsDup 0 1 (by decide) (by decide)
      (by decide) (by decide) (by decide)).2.2.1,
   (shadowed_registration_only_init_loadCfg regsDup 0 1 (by decide) (by decide)
      (by decide) (by decide) (by decide)).2.2.2⟩

/-- Witness for C2 at a concrete two-module registry. -/
theorem InitAll_two_full_passes_witness :
    (moduleMgr.Init (CreateModuleMgr regsFanout).1 regsFanout).1
      = regsFanout.map initEv ++ regsFanout.map cfgEv :=
  (InitAll_two_full_passes regsFanout (CreateModuleMgr regsFanout).1).1

end GameKJ
